import Mathlib

/-!
Shallow embedding of the `tenant_schemas` package (models.py and
postgresql_backend/introspection.py) and proofs about its tenant lifecycle,
schema lifecycle and catalog introspection behaviour.

The database side effects of `models.py` (rows, physical schemas, the
connection's current schema) are modelled as an explicit `DbState` record that
each operation threads through; an operation that can raise returns
`Except (Err × DbState) _`, the error carrying the state at the moment the
exception propagates.
-/

set_option autoImplicit false
set_option maxHeartbeats 1000000

namespace TenantSchemas

/-- Errors raised by the modelled operations. `contextViolation` models the
plain `Exception` raised by `Tenant.save` / `Tenant.delete` on a wrong
connection schema (the payload is the current schema named in the message). -/
inductive Err where
  | invalidSchemaName : String → Err
  | contextViolation : String → Err
  | schemaAlreadyExists : String → Err
  | migrationFailure : String → Err
  | indexError : Err
  deriving DecidableEq, Repr

/-- The database-visible state threaded through the model: the set of physical
schemas, the tenant rows (by primary key), the domain rows (tenant pk, domain
string), the connection's current schema (`connection.schema_name`), and the
next primary key handed out on insert. -/
structure DbState where
  schemas : List String
  tenants : List Nat
  domains : List (Nat × String)
  schema_name : String
  nextPk : Nat
  deriving DecidableEq, Repr

/-- A `Tenant` model instance: `pk = none` models an unsaved instance
(`self.pk is None`). `auto_create_schema` and `auto_drop_schema` are the class
flags of `models.py`. -/
structure TenantRec where
  pk : Option Nat
  schema_name : String
  name : String
  auto_create_schema : Bool
  auto_drop_schema : Bool
  deriving DecidableEq, Repr

/-- Modelled from the spec: the public/shared schema name.
`get_public_schema_name` (in the utilities module, which is not under `src/`)
reads `settings.PUBLIC_SCHEMA_NAME`; the spec's glossary fixes the notion of a
single public schema, conventionally named "public". -/
def public_schema_name : String := "public"

/-- Modelled from the spec: `_check_schema_name` (the postgresql backend base
module is not under `src/`). Spec 4.1: reject the empty string, names longer
than 63 bytes, characters outside [a-z0-9_], and reserved names: the public
schema name, the `pg_` prefix, and `information_schema`. -/
def check_schema_name (name : String) : Bool :=
  !name.isEmpty && decide (name.length ≤ 63) &&
    name.toList.all (fun c => c.isLower || c.isDigit || c == '_') &&
    !(name == public_schema_name) && !(name.startsWith "pg_") &&
    !(name == "information_schema")

/-- Modelled from the spec: `schema_exists` (utilities module, not under
`src/`): whether the physical schema is present in the database. -/
def schema_exists (name : String) (st : DbState) : Bool :=
  st.schemas.contains name

/-- Modelled from the spec: `connection.set_schema_to_public` (postgresql
backend base module, not under `src/`). Spec 4.2: reset the connection's
current schema to the public schema name. -/
def set_schema_to_public (st : DbState) : DbState :=
  { st with schema_name := public_schema_name }

/-- Modelled from the spec: the `migrate_schemas` migration collaborator (a
management command not under `src/`). Spec 6 treats it as a black box
returning success or failure, invoked "scoped to the new schema name"; spec 5
notes that on failure the connection can be left "stuck in the new schema's
context". `migrateOk` abstracts which schemas migrate successfully; the
command switches the connection to the target schema and, on failure, raises
with the connection still in that context. -/
def migrate_schemas (migrateOk : String → Bool) (schema : String) (st : DbState) :
    Except (Err × DbState) DbState :=
  let st1 := { st with schema_name := schema }
  if migrateOk schema then .ok st1 else .error (.migrationFailure schema, st1)

/-- `Tenant.create_schema` from models.py. The returned `Option Bool` is the
Python return value: the short-circuit path executes `return False`
(`some false`), while the path that issues CREATE SCHEMA falls off the end of
the function and returns Python `None` (`none`) — there is no `return True`
statement. `cursor.execute('CREATE SCHEMA ...')` fails when the schema already
exists (surfaced as a database error), which can only be reached with
`check_if_exists = false`. -/
def Tenant.create_schema (migrateOk : String → Bool) (t : TenantRec)
    (check_if_exists : Bool) (sync_schema : Bool) (st : DbState) :
    Except (Err × DbState) (Option Bool × DbState) :=
  if !check_schema_name t.schema_name then
    .error (.invalidSchemaName t.schema_name, st)
  else if check_if_exists && schema_exists t.schema_name st then
    .ok (some false, st)
  else if schema_exists t.schema_name st then
    .error (.schemaAlreadyExists t.schema_name, st)
  else
    let st1 := { st with schemas := st.schemas ++ [t.schema_name] }
    if sync_schema then
      match migrate_schemas migrateOk t.schema_name st1 with
      | .error es => .error es
      | .ok st2 => .ok (none, set_schema_to_public st2)
    else
      .ok (none, set_schema_to_public st1)

/-- `Tenant.delete` from models.py: context check, optional
`DROP SCHEMA ... CASCADE` when the schema exists and
(`auto_drop_schema or force_drop`), then the base-class row delete. -/
def Tenant.delete (t : TenantRec) (force_drop : Bool) (st : DbState) :
    Except (Err × DbState) DbState :=
  if !(st.schema_name == t.schema_name || st.schema_name == public_schema_name) then
    .error (.contextViolation st.schema_name, st)
  else
    let st1 :=
      if schema_exists t.schema_name st && (t.auto_drop_schema || force_drop) then
        { st with schemas := st.schemas.filter (fun s => !(s == t.schema_name)) }
      else st
    .ok { st1 with tenants := st1.tenants.filter (fun p => !(t.pk == some p)) }

/-- The base-class `models.Model.save`: an unsaved instance is inserted with a
fresh primary key; a saved instance is updated in place (Django updates the
existing row, inserting it if it is somehow absent). -/
def Tenant.base_save (t : TenantRec) (st : DbState) : TenantRec × DbState :=
  match t.pk with
  | none =>
      ({ t with pk := some st.nextPk },
       { st with tenants := st.tenants ++ [st.nextPk], nextPk := st.nextPk + 1 })
  | some p =>
      (t, if st.tenants.contains p then st else { st with tenants := st.tenants ++ [p] })

/-- `Tenant.save` from models.py: context checks, base save, then — for a new
row with `auto_create_schema` — `create_schema(check_if_exists=True)` guarded
by a `try` whose handler deletes the just-created row with `force_drop=True`
and re-raises the original exception. The `post_schema_sync` signal dispatch
is out of scope per the spec and modelled as succeeding. -/
def Tenant.save (migrateOk : String → Bool) (t : TenantRec) (st : DbState) :
    Except (Err × DbState) (TenantRec × DbState) :=
  let is_new := t.pk.isNone
  if is_new && !(st.schema_name == public_schema_name) then
    .error (.contextViolation st.schema_name, st)
  else if !is_new && !(st.schema_name == t.schema_name ||
      st.schema_name == public_schema_name) then
    .error (.contextViolation st.schema_name, st)
  else
    let ts1 := Tenant.base_save t st
    let t1 := ts1.1
    let st1 := ts1.2
    if is_new && t1.auto_create_schema then
      match Tenant.create_schema migrateOk t1 true true st1 with
      | .ok r => .ok (t1, r.2)
      | .error (e, st2) =>
          match Tenant.delete t1 true st2 with
          | .ok st3 => .error (e, st3)
          | .error es => .error es
    else
      .ok (t1, st1)

/-- Python `str.lower` as used by models.py, modelled on the character list
(ASCII case mapping, which is what domain names and schema identifiers use). -/
def str_lower (s : String) : String := ⟨s.data.map Char.toLower⟩

/-- `Domain.save` from models.py: lowercase `self.domain`, then the base-class
save (modelled as inserting the row). -/
def Domain.save (r : Nat × String) (st : DbState) : (Nat × String) × DbState :=
  let r1 := (r.1, str_lower r.2)
  (r1, { st with domains := st.domains ++ [r1] })

/-- Django's `Domain.objects.get_or_create(tenant=self, domain=domain)`:
return the first existing row matching both fields, or create one (the create
goes through `Domain.save`, hence through its lowercasing override) together
with the created flag. -/
def Domain.get_or_create (p : Nat) (d : String) (st : DbState) :
    ((Nat × String) × Bool) × DbState :=
  match st.domains.find? (fun r => r.1 == p && r.2 == d) with
  | some r => ((r, false), st)
  | none =>
      let rs := Domain.save (p, d) st
      ((rs.1, true), rs.2)

/-- `Tenant.add_domain` from models.py: lowercase the argument, then
`get_or_create` for this tenant, returning the object. `none` models the
database error raised when the owning tenant has no primary key to reference. -/
def Tenant.add_domain (t : TenantRec) (d : String) (st : DbState) :
    Option ((Nat × String) × DbState) :=
  match t.pk with
  | none => none
  | some p =>
      let rs := Domain.get_or_create p (str_lower d) st
      some (rs.1.1, rs.2)

/-- `Tenant.get_domains` from models.py: the domain strings of this tenant's
domain rows. -/
def Tenant.get_domains (t : TenantRec) (st : DbState) : List String :=
  match t.pk with
  | none => []
  | some p => (st.domains.filter (fun r => r.1 == p)).map (fun r => r.2)

/-! ### Catalog model for postgresql_backend/introspection.py

The catalog views the two introspection queries read are modelled as explicit
row lists; each SQL query becomes the corresponding filter/join/map over
them, and each Python loop a fold over the query's rows. -/

/-- A row of `pg_catalog.pg_class` joined with its namespace: name, kind
("r" table, "v" view, "" none of these), schema (`nspname`) and search-path
visibility (`pg_table_is_visible`). -/
structure PgClassRow where
  relname : String
  relkind : String
  nspname : String
  visible : Bool
  deriving DecidableEq, Repr

/-- A row of `information_schema.key_column_usage`. -/
structure KeyUsageRow where
  table_schema : String
  table_name : String
  constraint_name : String
  column_name : String
  ordinal_position : Nat
  deriving DecidableEq, Repr

/-- A row of `information_schema.table_constraints`. -/
structure TableConstraintRow where
  table_schema : String
  table_name : String
  constraint_name : String
  constraint_type : String
  deriving DecidableEq, Repr

/-- A row of `information_schema.constraint_column_usage`. -/
structure CcuRow where
  table_schema : String
  table_name : String
  column_name : String
  constraint_name : String
  deriving DecidableEq, Repr

/-- A row of `pg_catalog.pg_index` joined with the table's (`c`) and the
index's (`c2`) `pg_class` rows: the table's name and schema, the index name,
the per-position column names resolved from `indkey`, and the uniqueness and
primary flags. -/
structure IndexRow where
  table_relname : String
  table_nspname : String
  index_name : String
  columns : List String
  indisunique : Bool
  indisprimary : Bool
  deriving DecidableEq, Repr

/-- The catalog state the introspection queries read. -/
structure Catalog where
  pg_class : List PgClassRow
  key_column_usage : List KeyUsageRow
  table_constraints : List TableConstraintRow
  constraint_column_usage : List CcuRow
  pg_index : List IndexRow
  deriving DecidableEq, Repr

/-- The per-constraint record built by `get_constraints`. `foreign_key` holds
Python's `tuple(used_cols[0].split(".", 1))` as the list of split pieces. -/
structure ConstraintInfo where
  columns : List String
  primary_key : Bool
  unique : Bool
  foreign_key : Option (List String)
  check : Bool
  index : Bool
  deriving DecidableEq, Repr

/-- Decidable equality of `Except` results, for evaluating the introspection
functions on concrete catalogs. -/
instance instDecEqExcept {ε α : Type} [DecidableEq ε] [DecidableEq α] :
    DecidableEq (Except ε α)
  | .ok x, .ok y =>
      if h : x = y then .isTrue (h ▸ rfl)
      else .isFalse (fun hc => h (Except.ok.inj hc))
  | .error x, .error y =>
      if h : x = y then .isTrue (h ▸ rfl)
      else .isFalse (fun hc => h (Except.error.inj hc))
  | .ok _, .error _ => .isFalse (fun hc => Except.noConfusion hc)
  | .error _, .ok _ => .isFalse (fun hc => Except.noConfusion hc)

/-- Lookup in the `constraints` Python dict (insertion-ordered association
list with unique keys). -/
def lookupC : List (String × ConstraintInfo) → String → Option ConstraintInfo
  | [], _ => none
  | e :: es, k => if e.1 == k then some e.2 else lookupC es k

/-- `constraints[constraint]['columns'].append(column)`: append a column to
the entry with the given key. -/
def addColumnC (d : List (String × ConstraintInfo)) (k : String) (c : String) :
    List (String × ConstraintInfo) :=
  d.map (fun e =>
    if e.1 == k then (e.1, { e.2 with columns := e.2.columns ++ [c] }) else e)

/-- `get_table_list` from introspection.py: pg_class rows of kind 'r', 'v' or
'' whose namespace is the connection's current schema and which are visible
to the search path, rendered as `TableInfo(name, {'r': 't', 'v': 'v'}.get(kind))`
(`none` models Python `None`), minus the ignored tables. -/
def get_table_list (cat : Catalog) (schema_name : String)
    (ignored_tables : List String) : List (String × Option String) :=
  ((cat.pg_class.filter (fun c =>
      (c.relkind == "r" || c.relkind == "v" || c.relkind == "") &&
      c.nspname == schema_name && c.visible)).map
    (fun c => (c.relname,
      if c.relkind == "r" then some "t"
      else if c.relkind == "v" then some "v" else none))).filter
    (fun row => !(ignored_tables.contains row.1))

/-- Python `s.split(".", 1)` on the character list: split at the first
occurrence of the separator only. -/
def splitFirst (sep : Char) : List Char → Option (List Char × List Char)
  | [] => none
  | c :: cs =>
      if c = sep then some ([], cs)
      else
        match splitFirst sep cs with
        | none => none
        | some (a, b) => some (c :: a, b)

/-- Python `s.split(sep, 1)` for a one-character separator: one piece when the
separator does not occur, two pieces (split at the first occurrence) when it
does. -/
def split1 (s : String) (sep : Char) : List String :=
  match splitFirst sep s.data with
  | none => [s]
  | some (a, b) => [⟨a⟩, ⟨b⟩]

/-- The correlated ARRAY subquery of the first `get_constraints` query: every
`constraint_column_usage` row with this constraint name — in any schema, the
subquery has no schema filter — rendered as `table_name || '.' || column_name`. -/
def usedCols (cat : Catalog) (cname : String) : List String :=
  (cat.constraint_column_usage.filter
      (fun r => r.constraint_name == cname)).map
    (fun r => r.table_name ++ "." ++ r.column_name)

/-- A result row of the first `get_constraints` query. -/
structure KeyRowJoined where
  constraint_name : String
  column_name : String
  constraint_type : String
  used_cols : List String
  deriving DecidableEq, Repr

/-- Stable insertion into a list sorted by `ordinal_position` (a new row goes
after existing rows with an equal ordinal), modelling ORDER BY ... ASC. -/
def insertByOrdinal (r : KeyUsageRow × TableConstraintRow) :
    List (KeyUsageRow × TableConstraintRow) →
      List (KeyUsageRow × TableConstraintRow)
  | [] => [r]
  | x :: xs =>
      if r.1.ordinal_position < x.1.ordinal_position then r :: x :: xs
      else x :: insertByOrdinal r xs

/-- ORDER BY kc.ordinal_position ASC (stable). -/
def sortByOrdinal (l : List (KeyUsageRow × TableConstraintRow)) :
    List (KeyUsageRow × TableConstraintRow) :=
  l.foldl (fun acc r => insertByOrdinal r acc) []

/-- The first `get_constraints` query: key_column_usage JOIN table_constraints
on (table_schema, table_name, constraint_name), restricted to the connection's
schema and the given table, ordered by ordinal position, each row carrying the
correlated `used_cols` array. -/
def keyColumnRows (cat : Catalog) (schema table : String) :
    List KeyRowJoined :=
  (sortByOrdinal
    ((cat.key_column_usage.filter
        (fun kc => kc.table_schema == schema && kc.table_name == table)).flatMap
      (fun kc => (cat.table_constraints.filter
          (fun c => kc.table_schema == c.table_schema &&
            kc.table_name == c.table_name &&
            kc.constraint_name == c.constraint_name)).map
        (fun c => (kc, c))))).map
    (fun rc => { constraint_name := rc.1.constraint_name,
                 column_name := rc.1.column_name,
                 constraint_type := rc.2.constraint_type,
                 used_cols := usedCols cat rc.1.constraint_name })

/-- The record created for the first occurrence of a key-column constraint.
Python evaluates `used_cols[0]` only when the type is FOREIGN KEY (conditional
expression), and raises IndexError when that array is empty. -/
def mkKeyInfo (row : KeyRowJoined) : Except Err ConstraintInfo :=
  if str_lower row.constraint_type == "foreign key" then
    match row.used_cols with
    | [] => .error .indexError
    | s :: _ =>
        .ok { columns := [],
              primary_key := str_lower row.constraint_type == "primary key",
              unique := str_lower row.constraint_type == "primary key" ||
                str_lower row.constraint_type == "unique",
              foreign_key := some (split1 s '.'),
              check := false, index := false }
  else
    .ok { columns := [],
          primary_key := str_lower row.constraint_type == "primary key",
          unique := str_lower row.constraint_type == "primary key" ||
            str_lower row.constraint_type == "unique",
          foreign_key := none,
          check := false, index := false }

/-- One iteration of the first loop of `get_constraints`: create the record on
first sight of the constraint name, then append the column. -/
def keyStep (d : List (String × ConstraintInfo)) (row : KeyRowJoined) :
    Except Err (List (String × ConstraintInfo)) := do
  let d1 ←
    if (lookupC d row.constraint_name).isSome then pure d
    else do
      let ci ← mkKeyInfo row
      pure (d ++ [(row.constraint_name, ci)])
  pure (addColumnC d1 row.constraint_name row.column_name)

/-- The first loop of `get_constraints` over the key-column query rows. -/
def keyPass (cat : Catalog) (schema table : String) :
    Except Err (List (String × ConstraintInfo)) :=
  (keyColumnRows cat schema table).foldlM keyStep []

/-- The second `get_constraints` query: constraint_column_usage JOIN
table_constraints, restricted to CHECK constraints of the connection's schema
and the given table; rows are (constraint_name, column_name). -/
def checkRows (cat : Catalog) (schema table : String) :
    List (String × String) :=
  (cat.constraint_column_usage.filter
      (fun kc => kc.table_schema == schema && kc.table_name == table)).flatMap
    (fun kc => (cat.table_constraints.filter
        (fun c => c.constraint_type == "CHECK" &&
          kc.table_schema == c.table_schema &&
          kc.table_name == c.table_name &&
          kc.constraint_name == c.constraint_name)).map
      (fun _ => (kc.constraint_name, kc.column_name)))

/-- One iteration of the CHECK loop of `get_constraints`. -/
def checkStep (d : List (String × ConstraintInfo)) (row : String × String) :
    List (String × ConstraintInfo) :=
  let d1 :=
    if (lookupC d row.1).isSome then d
    else d ++ [(row.1, { columns := [], primary_key := false, unique := false,
                         foreign_key := none, check := true, index := false })]
  addColumnC d1 row.1 row.2

/-- The CHECK loop of `get_constraints`. -/
def checkPass (cat : Catalog) (schema table : String)
    (d : List (String × ConstraintInfo)) : List (String × ConstraintInfo) :=
  (checkRows cat schema table).foldl checkStep d

/-- The third `get_constraints` query: pg_class × pg_class × pg_index rows
joined on oids, filtered only by the table's relname — there is no schema
predicate in this query. -/
def indexRows (cat : Catalog) (table : String) : List IndexRow :=
  cat.pg_index.filter (fun r => r.table_relname == table)

/-- The record added for an index name not already present. -/
def mkIndexInfo (r : IndexRow) : ConstraintInfo :=
  { columns := r.columns, primary_key := r.indisprimary,
    unique := r.indisunique, foreign_key := none, check := false,
    index := true }

/-- One iteration of the index loop of `get_constraints`: an index whose name
is already a key is skipped entirely; a new name is added as a new entry. -/
def indexStep (d : List (String × ConstraintInfo)) (r : IndexRow) :
    List (String × ConstraintInfo) :=
  if (lookupC d r.index_name).isSome then d
  else d ++ [(r.index_name, mkIndexInfo r)]

/-- The index loop of `get_constraints`. -/
def indexPass (cat : Catalog) (table : String)
    (d : List (String × ConstraintInfo)) : List (String × ConstraintInfo) :=
  (indexRows cat table).foldl indexStep d

/-- `DatabaseSchemaIntrospection.get_constraints`: the three passes in source
order. The connection's current schema parameterises the first two queries;
the third query is filtered by table name only. -/
def get_constraints (cat : Catalog) (schema_name table_name : String) :
    Except Err (List (String × ConstraintInfo)) := do
  let d1 ← keyPass cat schema_name table_name
  pure (indexPass cat table_name (checkPass cat schema_name table_name d1))

/-- The rows of a catalog that belong to the given schema: pg_class rows by
namespace, information_schema rows by `table_schema`, index rows by the
table's namespace. -/
def restrictCatalog (schema : String) (cat : Catalog) : Catalog :=
  { pg_class := cat.pg_class.filter (fun c => c.nspname == schema),
    key_column_usage :=
      cat.key_column_usage.filter (fun r => r.table_schema == schema),
    table_constraints :=
      cat.table_constraints.filter (fun r => r.table_schema == schema),
    constraint_column_usage :=
      cat.constraint_column_usage.filter (fun r => r.table_schema == schema),
    pg_index := cat.pg_index.filter (fun r => r.table_nspname == schema) }

/-! ### General lemmas -/

theorem char_toLower_idem (c : Char) : c.toLower.toLower = c.toLower := by
  simp only [Char.toLower]
  split
  · next h =>
    have hval : (c.toNat + 32).isValidChar := Or.inl (by omega)
    have hv : (Char.ofNat (c.toNat + 32)).toNat = c.toNat + 32 := by
      unfold Char.ofNat
      rw [dif_pos hval]
      rfl
    rw [hv, if_neg (by omega)]
  · rfl

theorem str_lower_idem (s : String) : str_lower (str_lower s) = str_lower s := by
  simp [str_lower, List.map_map, Function.comp_def, char_toLower_idem]

theorem check_schema_name_ne_public {name : String}
    (h : check_schema_name name = true) : name ≠ public_schema_name := by
  intro hname
  subst hname
  exact absurd h (by decide)

/-- Case analysis of `Tenant.create_schema`: one of five outcomes occurs, the
exit state recorded for each. -/
theorem create_schema_cases (migrateOk : String → Bool) (t : TenantRec)
    (ci ss : Bool) (st : DbState) :
    (check_schema_name t.schema_name = false ∧
      Tenant.create_schema migrateOk t ci ss st =
        .error (.invalidSchemaName t.schema_name, st)) ∨
    (ci = true ∧ schema_exists t.schema_name st = true ∧
      Tenant.create_schema migrateOk t ci ss st = .ok (some false, st)) ∨
    (ci = false ∧ schema_exists t.schema_name st = true ∧
      check_schema_name t.schema_name = true ∧
      Tenant.create_schema migrateOk t ci ss st =
        .error (.schemaAlreadyExists t.schema_name, st)) ∨
    (check_schema_name t.schema_name = true ∧
      schema_exists t.schema_name st = false ∧
      Tenant.create_schema migrateOk t ci ss st = .ok (none,
        { st with schemas := st.schemas ++ [t.schema_name],
                  schema_name := public_schema_name })) ∨
    (check_schema_name t.schema_name = true ∧
      schema_exists t.schema_name st = false ∧ ss = true ∧
      migrateOk t.schema_name = false ∧
      Tenant.create_schema migrateOk t ci ss st =
        .error (.migrationFailure t.schema_name,
          { st with schemas := st.schemas ++ [t.schema_name],
                    schema_name := t.schema_name })) := by
  by_cases hc : check_schema_name t.schema_name = true
  case neg =>
    have hc' : check_schema_name t.schema_name = false := by
      revert hc; cases check_schema_name t.schema_name <;> simp
    exact Or.inl ⟨hc', by simp [Tenant.create_schema, hc']⟩
  case pos =>
  by_cases hex : schema_exists t.schema_name st = true
  · cases ci
    · refine Or.inr (Or.inr (Or.inl ⟨rfl, hex, hc, ?_⟩))
      simp [Tenant.create_schema, hc, hex]
    · refine Or.inr (Or.inl ⟨rfl, hex, ?_⟩)
      simp [Tenant.create_schema, hc, hex]
  · have hex' : schema_exists t.schema_name st = false := by
      revert hex; cases schema_exists t.schema_name st <;> simp
    cases ss
    · refine Or.inr (Or.inr (Or.inr (Or.inl ⟨hc, hex', ?_⟩)))
      simp [Tenant.create_schema, set_schema_to_public, hc, hex']
    · by_cases hmig : migrateOk t.schema_name = true
      · refine Or.inr (Or.inr (Or.inr (Or.inl ⟨hc, hex', ?_⟩)))
        simp [Tenant.create_schema, migrate_schemas, set_schema_to_public,
          hc, hex', hmig]
      · have hmig' : migrateOk t.schema_name = false := by
          revert hmig; cases migrateOk t.schema_name <;> simp
        refine Or.inr (Or.inr (Or.inr (Or.inr ⟨hc, hex', rfl, hmig', ?_⟩)))
        simp [Tenant.create_schema, migrate_schemas, hc, hex', hmig']

/-- `Tenant.delete` with `force_drop` from an allowed context always succeeds,
removes the row, removes the physical schema, and leaves the connection's
current schema and the domain rows untouched. -/
theorem delete_force_spec (t : TenantRec) (st : DbState) (p : Nat)
    (hpk : t.pk = some p)
    (hctx : st.schema_name = t.schema_name ∨ st.schema_name = public_schema_name) :
    ∃ st1, Tenant.delete t true st = .ok st1 ∧
      p ∉ st1.tenants ∧ t.schema_name ∉ st1.schemas ∧
      st1.schema_name = st.schema_name ∧ st1.domains = st.domains := by
  have hguard : (st.schema_name == t.schema_name ||
      st.schema_name == public_schema_name) = true := by
    rcases hctx with h | h <;> simp [h]
  by_cases hex : schema_exists t.schema_name st = true
  · have hdel : Tenant.delete t true st =
        .ok { st with
                schemas := st.schemas.filter (fun s => !(s == t.schema_name)),
                tenants := st.tenants.filter (fun q => !(t.pk == some q)) } := by
      simp [Tenant.delete, hguard, hex]
    refine ⟨_, hdel, ?_, ?_, rfl, rfl⟩
    · simp [List.mem_filter, hpk]
    · simp [List.mem_filter]
  · have hex' : schema_exists t.schema_name st = false := by
      revert hex; cases schema_exists t.schema_name st <;> simp
    have hdel : Tenant.delete t true st =
        .ok { st with
                tenants := st.tenants.filter (fun q => !(t.pk == some q)) } := by
      simp [Tenant.delete, hguard, hex']
    refine ⟨_, hdel, ?_, ?_, rfl, rfl⟩
    · simp [List.mem_filter, hpk]
    · simpa [schema_exists, List.contains_iff_exists_mem_beq] using hex'

/-- Behaviour of `Tenant.save` for a new tenant saved from the public context
with `auto_create_schema` set: either it succeeds and the inserted row is
present, or the compensating rollback ran — the inserted row and the tenant's
physical schema are gone and the original creation error propagates, the
connection context being public only when the failure happened before the
migration step (a migration failure leaves it at the tenant's schema). -/
theorem save_new_public_spec (migrateOk : String → Bool) (t : TenantRec)
    (st : DbState) (hpk : t.pk = none) (hauto : t.auto_create_schema = true)
    (hctx : st.schema_name = public_schema_name) :
    (∃ st1, Tenant.save migrateOk t st =
        .ok ({ t with pk := some st.nextPk }, st1) ∧ st.nextPk ∈ st1.tenants) ∨
    (∃ e st1, Tenant.save migrateOk t st = .error (e, st1) ∧
      st.nextPk ∉ st1.tenants ∧ t.schema_name ∉ st1.schemas ∧
      ((e = .invalidSchemaName t.schema_name ∧
          st1.schema_name = public_schema_name) ∨
        (e = .migrationFailure t.schema_name ∧
          st1.schema_name = t.schema_name))) := by
  obtain ⟨pk, sn, nm, ac, ad⟩ := t
  obtain ⟨sch, ten, dom, cur, nxt⟩ := st
  obtain rfl : pk = none := hpk
  obtain rfl : ac = true := hauto
  obtain rfl : cur = public_schema_name := hctx
  have hred : Tenant.save migrateOk ⟨none, sn, nm, true, ad⟩
      ⟨sch, ten, dom, public_schema_name, nxt⟩ =
      (match Tenant.create_schema migrateOk ⟨some nxt, sn, nm, true, ad⟩ true true
          ⟨sch, ten ++ [nxt], dom, public_schema_name, nxt + 1⟩ with
       | .ok r => .ok (⟨some nxt, sn, nm, true, ad⟩, r.2)
       | .error (e, st2) =>
          match Tenant.delete ⟨some nxt, sn, nm, true, ad⟩ true st2 with
          | .ok st3 => .error (e, st3)
          | .error es => .error es) := by
    simp [Tenant.save, Tenant.base_save]
  rw [hred]
  rcases create_schema_cases migrateOk ⟨some nxt, sn, nm, true, ad⟩ true true
      ⟨sch, ten ++ [nxt], dom, public_schema_name, nxt + 1⟩ with
    ⟨hc, heq⟩ | ⟨_, hex, heq⟩ | ⟨hci, _, _, _⟩ | ⟨hc, hex, heq⟩ |
    ⟨hc, hex, _, hmig, heq⟩
  · obtain ⟨st3, hdel, hnot, hnots, hsn, _⟩ :=
      delete_force_spec ⟨some nxt, sn, nm, true, ad⟩
        ⟨sch, ten ++ [nxt], dom, public_schema_name, nxt + 1⟩ nxt rfl (Or.inr rfl)
    simp only [heq, hdel]
    exact Or.inr ⟨_, st3, rfl, hnot, hnots, Or.inl ⟨rfl, hsn⟩⟩
  · simp only [heq]
    exact Or.inl ⟨_, rfl, by simp⟩
  · simp at hci
  · simp only [heq]
    exact Or.inl ⟨_, rfl, by simp⟩
  · obtain ⟨st3, hdel, hnot, hnots, hsn, _⟩ :=
      delete_force_spec ⟨some nxt, sn, nm, true, ad⟩
        ⟨sch ++ [sn], ten ++ [nxt], dom, sn, nxt + 1⟩ nxt rfl (Or.inl rfl)
    simp only [heq, hdel]
    exact Or.inr ⟨_, st3, rfl, hnot, hnots, Or.inr ⟨rfl, hsn⟩⟩

/-! ### Claim theorems -/

/-- C4 (code bug): `create_schema`'s docstring and the claim say it "Returns
true if the schema was created, false otherwise"; the short-circuit path does
`return False` (`some false`), but the path that issues CREATE SCHEMA has no
return statement and yields Python `None` (`none`), never `True`. Both
evaluations below are at concrete failing/agreeing inputs. -/
theorem c4_create_schema_return_value :
    Tenant.create_schema (fun _ => true)
      { pk := none, schema_name := "t1", name := "T1",
        auto_create_schema := true, auto_drop_schema := false } false true
      { schemas := ["public"], tenants := [], domains := [],
        schema_name := "public", nextPk := 0 }
      = .ok (none, { schemas := ["public", "t1"], tenants := [], domains := [],
                     schema_name := "public", nextPk := 0 }) ∧
    Tenant.create_schema (fun _ => true)
      { pk := none, schema_name := "t1", name := "T1",
        auto_create_schema := true, auto_drop_schema := false } true true
      { schemas := ["public", "t1"], tenants := [], domains := [],
        schema_name := "public", nextPk := 0 }
      = .ok (some false, { schemas := ["public", "t1"], tenants := [],
                           domains := [], schema_name := "public",
                           nextPk := 0 }) :=
  ⟨rfl, rfl⟩

/-- C5: `Tenant.delete` from an allowed context: when the physical schema
exists and (`auto_drop_schema` or the `force_drop` flag), the schema is
dropped and the row removed; with `auto_drop_schema = false` and no force
flag, the schemas are left exactly as they were and the row is removed. -/
theorem c5_delete_drop_semantics (t : TenantRec) (st : DbState) (force : Bool)
    (p : Nat) (hpk : t.pk = some p)
    (hctx : st.schema_name = t.schema_name ∨ st.schema_name = public_schema_name) :
    (schema_exists t.schema_name st = true → (t.auto_drop_schema || force) = true →
      ∃ st1, Tenant.delete t force st = .ok st1 ∧
        t.schema_name ∉ st1.schemas ∧ p ∉ st1.tenants) ∧
    (t.auto_drop_schema = false → force = false →
      ∃ st1, Tenant.delete t force st = .ok st1 ∧
        st1.schemas = st.schemas ∧ p ∉ st1.tenants) := by
  have hguard : (st.schema_name == t.schema_name ||
      st.schema_name == public_schema_name) = true := by
    rcases hctx with h | h <;> simp [h]
  constructor
  · intro hex hflag
    have hdel : Tenant.delete t force st =
        .ok { st with
                schemas := st.schemas.filter (fun s => !(s == t.schema_name)),
                tenants := st.tenants.filter (fun q => !(t.pk == some q)) } := by
      simp [Tenant.delete, hguard, hex, hflag]
    refine ⟨_, hdel, ?_, ?_⟩
    · simp [List.mem_filter]
    · simp [List.mem_filter, hpk]
  · intro hdrop hforce
    have hdel : Tenant.delete t force st =
        .ok { st with
                tenants := st.tenants.filter (fun q => !(t.pk == some q)) } := by
      simp [Tenant.delete, hguard, hdrop, hforce]
    refine ⟨_, hdel, ?_, ?_⟩
    · rfl
    · simp [List.mem_filter, hpk]

/-- C5 witness: concrete runs of both halves of `c5_delete_drop_semantics`. -/
theorem c5_delete_drop_semantics_witness :
    (∃ st1, Tenant.delete ⟨some 5, "t1", "T1", true, true⟩ false
        { schemas := ["public", "t1"], tenants := [5], domains := [],
          schema_name := "public", nextPk := 6 } = .ok st1 ∧
        "t1" ∉ st1.schemas ∧ 5 ∉ st1.tenants) ∧
    (∃ st1, Tenant.delete ⟨some 6, "t2", "T2", true, false⟩ false
        { schemas := ["public", "t2"], tenants := [6], domains := [],
          schema_name := "public", nextPk := 7 } = .ok st1 ∧
        st1.schemas = ["public", "t2"] ∧ 6 ∉ st1.tenants) := by
  constructor
  · exact (c5_delete_drop_semantics ⟨some 5, "t1", "T1", true, true⟩
      { schemas := ["public", "t1"], tenants := [5], domains := [],
        schema_name := "public", nextPk := 6 } false 5 rfl (Or.inr rfl)).1
      (by decide) (by decide)
  · exact (c5_delete_drop_semantics ⟨some 6, "t2", "T2", true, false⟩
      { schemas := ["public", "t2"], tenants := [6], domains := [],
        schema_name := "public", nextPk := 7 } false 6 rfl (Or.inr rfl)).2
      rfl rfl

/-- C1 (counterexample): a tenant creation in which migration application
fails: after the call raises, the tenant row is gone, the physical schema is
gone and the migration error propagates — but the connection's current schema
is "t1", the tenant's schema, not the public schema: the claim's context
clause fails because `create_schema` has no `finally` resetting the context. -/
theorem c1_save_rollback_counterexample :
    Tenant.save (fun _ => false)
      { pk := none, schema_name := "t1", name := "T1",
        auto_create_schema := true, auto_drop_schema := false }
      { schemas := ["public"], tenants := [], domains := [],
        schema_name := "public", nextPk := 5 }
      = .error (.migrationFailure "t1",
                { schemas := ["public"], tenants := [], domains := [],
                  schema_name := "t1", nextPk := 6 }) ∧
    ("t1" : String) ≠ public_schema_name :=
  ⟨rfl, by decide⟩

/-- C1 (amended): for every tenant creation (unsaved tenant with
`auto_create_schema`, saved from the public context) in which schema creation
or migration application fails, after the call raises the tenant row does not
exist, the physical schema does not exist, and the original error propagates;
the connection's current schema equals the public schema only when the
failure happened before the migration step — after a migration failure it
equals the tenant's schema (it is not reset to public). -/
theorem c1_save_rollback (migrateOk : String → Bool) (t : TenantRec)
    (st : DbState) (e : Err) (st1 : DbState)
    (hpk : t.pk = none) (hauto : t.auto_create_schema = true)
    (hctx : st.schema_name = public_schema_name)
    (hrun : Tenant.save migrateOk t st = .error (e, st1)) :
    st.nextPk ∉ st1.tenants ∧ t.schema_name ∉ st1.schemas ∧
    ((e = .invalidSchemaName t.schema_name ∧
        st1.schema_name = public_schema_name) ∨
      (e = .migrationFailure t.schema_name ∧
        st1.schema_name = t.schema_name)) := by
  rcases save_new_public_spec migrateOk t st hpk hauto hctx with
    ⟨st2, hok, _⟩ | ⟨e2, st2, herr, hnot, hnots, hdisj⟩
  · rw [hok] at hrun
    simp at hrun
  · rw [herr] at hrun
    simp only [Except.error.injEq, Prod.mk.injEq] at hrun
    obtain ⟨rfl, rfl⟩ := hrun
    exact ⟨hnot, hnots, hdisj⟩

/-- C1 witness: `c1_save_rollback` applied to the concrete migration-failure
run of `c1_save_rollback_counterexample`. -/
theorem c1_save_rollback_witness :
    (5 : Nat) ∉ ([] : List Nat) ∧ ("t1" : String) ∉ (["public"] : List String) ∧
    ((Err.migrationFailure "t1" = .invalidSchemaName "t1" ∧
        ("t1" : String) = public_schema_name) ∨
      (Err.migrationFailure "t1" = .migrationFailure "t1" ∧
        ("t1" : String) = "t1")) :=
  c1_save_rollback (fun _ => false)
    { pk := none, schema_name := "t1", name := "T1",
      auto_create_schema := true, auto_drop_schema := false }
    { schemas := ["public"], tenants := [], domains := [],
      schema_name := "public", nextPk := 5 }
    (.migrationFailure "t1")
    { schemas := ["public"], tenants := [], domains := [],
      schema_name := "t1", nextPk := 6 }
    rfl rfl rfl rfl

/-- C3 (counterexample): refutes "in all other context cases the row is
persisted": saving an unsaved tenant from the public context (no context
violation) in which migration fails ends with the just-inserted row removed
again by the compensating rollback — the raised error is the migration
failure, not a context violation, and the row (pk 7) is not persisted. -/
theorem c3_save_persistence_counterexample :
    Tenant.save (fun _ => false)
      { pk := none, schema_name := "t2", name := "T2",
        auto_create_schema := true, auto_drop_schema := false }
      { schemas := ["public"], tenants := [3], domains := [],
        schema_name := "public", nextPk := 7 }
      = .error (.migrationFailure "t2",
                { schemas := ["public"], tenants := [3], domains := [],
                  schema_name := "t2", nextPk := 8 }) ∧
    (7 : Nat) ∉ ([3] : List Nat) :=
  ⟨rfl, by decide⟩

/-- C3 (amended): `Tenant.save` raises a context-violation error and leaves
the state unchanged exactly in the claim's cases (a) and (b); in all other
context cases the base row write is performed: the row is present on every
successful exit, but when automatic schema creation then fails, the
compensating rollback removes the just-inserted row again and the propagated
error (never a context violation) leaves the row not persisted. -/
theorem c3_save_context_gate (migrateOk : String → Bool) (t : TenantRec)
    (st : DbState) :
    (t.pk = none → st.schema_name ≠ public_schema_name →
      Tenant.save migrateOk t st =
        .error (.contextViolation st.schema_name, st)) ∧
    (∀ p, t.pk = some p → st.schema_name ≠ t.schema_name →
      st.schema_name ≠ public_schema_name →
      Tenant.save migrateOk t st =
        .error (.contextViolation st.schema_name, st)) ∧
    (∀ p, t.pk = some p →
      (st.schema_name = t.schema_name ∨ st.schema_name = public_schema_name) →
      ∃ st1, Tenant.save migrateOk t st = .ok (t, st1) ∧ p ∈ st1.tenants) ∧
    (t.pk = none → st.schema_name = public_schema_name →
      (∃ t1 st1, Tenant.save migrateOk t st = .ok (t1, st1) ∧
        st.nextPk ∈ st1.tenants) ∨
      (∃ e st1, Tenant.save migrateOk t st = .error (e, st1) ∧
        (∀ s, e ≠ .contextViolation s) ∧ st.nextPk ∉ st1.tenants)) := by
  refine ⟨?_, ?_, ?_, ?_⟩
  · intro hpk hne
    simp [Tenant.save, hpk, hne]
  · intro p hpk hne1 hne2
    simp [Tenant.save, hpk, hne1, hne2]
  · intro p hpk hctx
    have hguard : (st.schema_name == t.schema_name ||
        st.schema_name == public_schema_name) = true := by
      rcases hctx with h | h <;> simp [h]
    by_cases hmem : p ∈ st.tenants
    · exact ⟨st, by simp [Tenant.save, Tenant.base_save, hpk, hguard, hmem], hmem⟩
    · refine ⟨{ st with tenants := st.tenants ++ [p] },
        by simp [Tenant.save, Tenant.base_save, hpk, hguard, hmem], by simp⟩
  · intro hpk hctx
    by_cases hac : t.auto_create_schema = true
    · rcases save_new_public_spec migrateOk t st hpk hac hctx with
        ⟨st1, hok, hmem⟩ | ⟨e, st1, herr, hnot, _, hdisj⟩
      · exact Or.inl ⟨_, st1, hok, hmem⟩
      · refine Or.inr ⟨e, st1, herr, ?_, hnot⟩
        intro s hs
        rcases hdisj with ⟨rfl, _⟩ | ⟨rfl, _⟩ <;> cases hs
    · have hac' : t.auto_create_schema = false := by
        revert hac; cases t.auto_create_schema <;> simp
      obtain ⟨pk, sn, nm, ac, ad⟩ := t
      obtain rfl : pk = none := hpk
      obtain rfl : ac = false := hac'
      obtain ⟨sch, ten, dom, cur, nxt⟩ := st
      obtain rfl : cur = public_schema_name := hctx
      refine Or.inl ⟨⟨some nxt, sn, nm, false, ad⟩,
        ⟨sch, ten ++ [nxt], dom, public_schema_name, nxt + 1⟩, ?_, ?_⟩
      · simp [Tenant.save, Tenant.base_save]
      · simp

/-- C3 witness: a concrete context-violating save (rejected, state unchanged)
and a concrete allowed update (row persisted). -/
theorem c3_save_context_gate_witness :
    Tenant.save (fun _ => true)
      { pk := none, schema_name := "t3", name := "T3",
        auto_create_schema := true, auto_drop_schema := false }
      { schemas := ["public"], tenants := [], domains := [],
        schema_name := "other", nextPk := 0 }
      = .error (.contextViolation "other",
                { schemas := ["public"], tenants := [], domains := [],
                  schema_name := "other", nextPk := 0 }) ∧
    (∃ st1, Tenant.save (fun _ => true)
        { pk := some 4, schema_name := "t4", name := "T4",
          auto_create_schema := true, auto_drop_schema := false }
        { schemas := ["public", "t4"], tenants := [4], domains := [],
          schema_name := "public", nextPk := 9 }
      = .ok ({ pk := some 4, schema_name := "t4", name := "T4",
               auto_create_schema := true, auto_drop_schema := false }, st1) ∧
      4 ∈ st1.tenants) := by
  constructor
  · exact (c3_save_context_gate (fun _ => true)
      { pk := none, schema_name := "t3", name := "T3",
        auto_create_schema := true, auto_drop_schema := false }
      { schemas := ["public"], tenants := [], domains := [],
        schema_name := "other", nextPk := 0 }).1 rfl (by decide)
  · exact (c3_save_context_gate (fun _ => true)
      { pk := some 4, schema_name := "t4", name := "T4",
        auto_create_schema := true, auto_drop_schema := false }
      { schemas := ["public", "t4"], tenants := [4], domains := [],
        schema_name := "public", nextPk := 9 }).2.2.1 4 rfl (Or.inr rfl)

/-- C2 (counterexample): an invocation of `create_schema` in which migration
application fails exits with the connection's current schema equal to the new
tenant schema "t1", not the public schema: there is no `finally` in the
source, so `set_schema_to_public` is skipped on the failure path. -/
theorem c2_create_schema_context_counterexample :
    Tenant.create_schema (fun _ => false)
      { pk := none, schema_name := "t1", name := "T1",
        auto_create_schema := true, auto_drop_schema := false } true true
      { schemas := ["public"], tenants := [], domains := [],
        schema_name := "public", nextPk := 5 }
      = .error (.migrationFailure "t1",
                { schemas := ["public", "t1"], tenants := [], domains := [],
                  schema_name := "t1", nextPk := 5 }) ∧
    ("t1" : String) ≠ public_schema_name :=
  ⟨rfl, by decide⟩

/-- C2 (amended): exhaustive exit behaviour of `create_schema`: on the exit
that completed CREATE SCHEMA (and any migrations) the connection's schema is
reset to public; the short-circuit, validation-error and DDL-error exits leave
the state untouched (context as at entry); on the migration-failure exit the
migration error propagates but the connection's schema equals the new
(non-public) schema — it is not reset to public. -/
theorem c2_create_schema_exit_context (migrateOk : String → Bool)
    (t : TenantRec) (ci ss : Bool) (st : DbState) :
    (Tenant.create_schema migrateOk t ci ss st = .ok (some false, st)) ∨
    (∃ st1, Tenant.create_schema migrateOk t ci ss st = .ok (none, st1) ∧
      st1.schema_name = public_schema_name) ∨
    (Tenant.create_schema migrateOk t ci ss st =
      .error (.invalidSchemaName t.schema_name, st)) ∨
    (Tenant.create_schema migrateOk t ci ss st =
      .error (.schemaAlreadyExists t.schema_name, st)) ∨
    (∃ st1, Tenant.create_schema migrateOk t ci ss st =
      .error (.migrationFailure t.schema_name, st1) ∧
      st1.schema_name = t.schema_name ∧ st1.schema_name ≠ public_schema_name) := by
  unfold Tenant.create_schema
  split
  · right; right; left; rfl
  · next hvalidb =>
    have hvalid : check_schema_name t.schema_name = true := by
      revert hvalidb
      cases check_schema_name t.schema_name <;> simp
    split
    · left; rfl
    · split
      · right; right; right; left; rfl
      · unfold migrate_schemas
        split
        · split
          · next hmig =>
            right; left
            exact ⟨_, rfl, rfl⟩
          · next hmig =>
            right; right; right; right
            exact ⟨_, rfl, rfl, check_schema_name_ne_public hvalid⟩
        · right; left
          exact ⟨_, rfl, rfl⟩

/-- C8: domain strings are stored lowercase by every write path: for every
saved tenant and every domain string `d`, `add_domain(d)` (whose create path
goes through `Domain.save`) returns a row whose domain is the lowercase form
of `d`, and `get_domains()` afterwards contains that lowercase form. -/
theorem c8_add_domain_lowercase (t : TenantRec) (st : DbState) (d : String)
    (p : Nat) (hpk : t.pk = some p) :
    ∃ obj st1, Tenant.add_domain t d st = some (obj, st1) ∧
      obj.2 = str_lower d ∧ str_lower d ∈ Tenant.get_domains t st1 := by
  obtain ⟨pk, sn, nm, ac, ad⟩ := t
  obtain rfl : pk = some p := hpk
  cases hfind : st.domains.find? (fun r => r.1 == p && r.2 == str_lower d) with
  | some r =>
      have hmem := List.mem_of_find?_eq_some hfind
      have hr := List.find?_some hfind
      have hr' := hr
      simp only [Bool.and_eq_true, beq_iff_eq] at hr'
      obtain ⟨h1, h2⟩ := hr'
      refine ⟨r, st, ?_, h2, ?_⟩
      · simp [Tenant.add_domain, Domain.get_or_create, hfind]
      · simp only [Tenant.get_domains]
        exact List.mem_map.mpr ⟨r,
          List.mem_filter.mpr ⟨hmem, by simp [h1]⟩, h2⟩
  | none =>
      refine ⟨(p, str_lower (str_lower d)),
        { st with domains := st.domains ++ [(p, str_lower (str_lower d))] },
        ?_, str_lower_idem d, ?_⟩
      · simp [Tenant.add_domain, Domain.get_or_create, Domain.save, hfind]
      · simp only [Tenant.get_domains]
        exact List.mem_map.mpr ⟨(p, str_lower (str_lower d)),
          List.mem_filter.mpr
            ⟨List.mem_append_right _ (List.mem_singleton_self _), by simp⟩,
          str_lower_idem d⟩

/-- C8 witness: `add_domain("Example.COM")` on a saved tenant yields a row
carrying the lowercase domain, found by `get_domains`. -/
theorem c8_add_domain_lowercase_witness :
    ∃ obj st1,
      Tenant.add_domain ⟨some 1, "t1", "T1", true, false⟩ "Example.COM"
        { schemas := ["public"], tenants := [1], domains := [],
          schema_name := "public", nextPk := 2 } = some (obj, st1) ∧
      obj.2 = str_lower "Example.COM" ∧
      str_lower "Example.COM" ∈
        Tenant.get_domains ⟨some 1, "t1", "T1", true, false⟩ st1 :=
  c8_add_domain_lowercase ⟨some 1, "t1", "T1", true, false⟩
    { schemas := ["public"], tenants := [1], domains := [],
      schema_name := "public", nextPk := 2 } "Example.COM" 1 rfl

/-- C10: `add_domain` is idempotent up to case: on a state with at most one
matching row, two calls with any casings of the same string return the same
row, the second call changes nothing, and exactly one (tenant, lowercase
domain) row remains. -/
theorem c10_add_domain_idempotent (t : TenantRec) (st : DbState)
    (d1 d2 : String) (p : Nat) (hpk : t.pk = some p)
    (hcase : str_lower d1 = str_lower d2)
    (huniq : (st.domains.filter
        (fun r => r.1 == p && r.2 == str_lower d1)).length ≤ 1) :
    ∃ o1 st1, Tenant.add_domain t d1 st = some (o1, st1) ∧
      Tenant.add_domain t d2 st1 = some (o1, st1) ∧
      (st1.domains.filter
        (fun r => r.1 == p && r.2 == str_lower d1)).length = 1 := by
  obtain ⟨pk, sn, nm, ac, ad⟩ := t
  obtain rfl : pk = some p := hpk
  cases hfind : st.domains.find? (fun r => r.1 == p && r.2 == str_lower d1) with
  | some r =>
      refine ⟨r, st, ?_, ?_, ?_⟩
      · simp [Tenant.add_domain, Domain.get_or_create, hfind]
      · simp only [Tenant.add_domain, Domain.get_or_create]
        rw [← hcase]
        simp [hfind]
      · have hmem := List.mem_of_find?_eq_some hfind
        have hp := List.find?_some hfind
        have hmemf : r ∈ st.domains.filter
            (fun r => r.1 == p && r.2 == str_lower d1) :=
          List.mem_filter.mpr ⟨hmem, hp⟩
        have hlen := List.length_pos.mpr (List.ne_nil_of_mem hmemf)
        omega
  | none =>
      have hnil : st.domains.filter
          (fun r => r.1 == p && r.2 == str_lower d1) = [] := by
        refine List.filter_eq_nil_iff.mpr ?_
        intro x hx
        exact List.find?_eq_none.mp hfind x hx
      have hfind2 : (st.domains ++ [(p, str_lower (str_lower d1))]).find?
          (fun r => r.1 == p && r.2 == str_lower d1) =
            some (p, str_lower (str_lower d1)) := by
        rw [List.find?_append, hfind]
        simp [List.find?, str_lower_idem]
      refine ⟨(p, str_lower (str_lower d1)),
        { st with domains := st.domains ++ [(p, str_lower (str_lower d1))] },
        ?_, ?_, ?_⟩
      · simp [Tenant.add_domain, Domain.get_or_create, Domain.save, hfind]
      · simp only [Tenant.add_domain, Domain.get_or_create]
        rw [← hcase]
        simp [hfind2]
      · rw [List.filter_append, hnil]
        simp [str_lower_idem]

/-- C10 witness: `add_domain("Example.COM")` then `add_domain("EXAMPLE.com")`
leave exactly one (tenant, "example.com") row and the second call returns the
first call's row on an unchanged state. -/
theorem c10_add_domain_idempotent_witness :
    ∃ o1 st1,
      Tenant.add_domain ⟨some 1, "t1", "T1", true, false⟩ "Example.COM"
        { schemas := ["public"], tenants := [1], domains := [],
          schema_name := "public", nextPk := 2 } = some (o1, st1) ∧
      Tenant.add_domain ⟨some 1, "t1", "T1", true, false⟩ "EXAMPLE.com" st1 =
        some (o1, st1) ∧
      (st1.domains.filter
        (fun r => r.1 == 1 && r.2 == str_lower "Example.COM")).length = 1 :=
  c10_add_domain_idempotent ⟨some 1, "t1", "T1", true, false⟩
    { schemas := ["public"], tenants := [1], domains := [],
      schema_name := "public", nextPk := 2 } "Example.COM" "EXAMPLE.com" 1
    rfl (by decide) (by decide)

/-! ### Dictionary lemmas for the introspection passes -/

theorem lookupC_append (d1 d2 : List (String × ConstraintInfo)) (k : String) :
    lookupC (d1 ++ d2) k = (lookupC d1 k).or (lookupC d2 k) := by
  induction d1 with
  | nil => simp [lookupC]
  | cons e es ih =>
      simp only [List.cons_append, lookupC]
      by_cases hk : (e.1 == k) = true
      · simp [hk]
      · simp [hk, ih]

theorem lookupC_append_left {d1 : List (String × ConstraintInfo)}
    (d2 : List (String × ConstraintInfo)) {k : String} {ci : ConstraintInfo}
    (h : lookupC d1 k = some ci) : lookupC (d1 ++ d2) k = some ci := by
  rw [lookupC_append, h]
  rfl

/-- `addColumnC` only rewrites the `columns` field: any entry of the result
traces back to an entry of the input with the same `foreign_key`. -/
theorem lookupC_addColumnC_fk {d : List (String × ConstraintInfo)}
    {kc col k : String} {ci1 : ConstraintInfo}
    (h : lookupC (addColumnC d kc col) k = some ci1) :
    ∃ ci, lookupC d k = some ci ∧ ci1.foreign_key = ci.foreign_key := by
  induction d with
  | nil => simp [addColumnC, lookupC] at h
  | cons e es ih =>
      simp only [addColumnC, List.map_cons] at h
      by_cases hek : (e.1 == kc) = true
      · rw [if_pos hek] at h
        simp only [lookupC] at h ⊢
        by_cases hk : (e.1 == k) = true
        · rw [if_pos hk] at h ⊢
          refine ⟨e.2, rfl, ?_⟩
          obtain rfl : ({ e.2 with columns := e.2.columns ++ [col] }
              : ConstraintInfo) = ci1 := by
            injection h
          rfl
        · rw [if_neg hk] at h ⊢
          exact ih h
      · rw [if_neg hek] at h
        simp only [lookupC] at h ⊢
        by_cases hk : (e.1 == k) = true
        · rw [if_pos hk] at h ⊢
          exact ⟨e.2, rfl, by injection h with h1; rw [← h1]⟩
        · rw [if_neg hk] at h ⊢
          exact ih h

theorem lookupC_single (k0 k : String) (ci0 : ConstraintInfo) :
    lookupC [(k0, ci0)] k = if k0 == k then some ci0 else none := by
  simp [lookupC]

/-- One `keyStep` iteration: an entry of the output dict either comes from the
input dict with the same `foreign_key`, or is the freshly created record of
this row. -/
theorem keyStep_fk {d d1 : List (String × ConstraintInfo)} {row : KeyRowJoined}
    (hstep : keyStep d row = .ok d1)
    {k : String} {ci1 : ConstraintInfo} (h : lookupC d1 k = some ci1) :
    (∃ ci, lookupC d k = some ci ∧ ci1.foreign_key = ci.foreign_key) ∨
    (row.constraint_name = k ∧ ∃ ciN, mkKeyInfo row = .ok ciN ∧
      ci1.foreign_key = ciN.foreign_key) := by
  unfold keyStep at hstep
  by_cases hpres : (lookupC d row.constraint_name).isSome = true
  · rw [if_pos hpres] at hstep
    obtain rfl : addColumnC d row.constraint_name row.column_name = d1 := by
      simpa [pure, Except.pure, bind, Except.bind] using hstep
    exact Or.inl (lookupC_addColumnC_fk h)
  · rw [if_neg hpres] at hstep
    cases hmk : mkKeyInfo row with
    | error e => rw [hmk] at hstep; simp [Except.bind] at hstep
    | ok ciN =>
        rw [hmk] at hstep
        obtain rfl : addColumnC (d ++ [(row.constraint_name, ciN)])
            row.constraint_name row.column_name = d1 := by
          simpa [pure, Except.pure, Except.bind, bind] using hstep
        obtain ⟨ci0, h0, hfk⟩ := lookupC_addColumnC_fk h
        rw [lookupC_append] at h0
        cases hd : lookupC d k with
        | some ci =>
            rw [hd] at h0
            refine Or.inl ⟨ci, rfl, ?_⟩
            rw [hfk]
            injection h0 with h0'
            rw [h0']
        | none =>
            rw [hd] at h0
            rw [Option.none_or, lookupC_single] at h0
            by_cases hk : (row.constraint_name == k) = true
            · rw [if_pos hk] at h0
              refine Or.inr ⟨by simpa using hk, ciN, rfl, ?_⟩
              rw [hfk]
              injection h0 with h0'
              rw [h0']
            · rw [if_neg hk] at h0
              cases h0

/-- The first loop (`keyPass` fold): any entry of the output traces back to
the input dict or to the creating row, preserving `foreign_key`. -/
theorem foldlM_keyStep_fk (rows : List KeyRowJoined) :
    ∀ d d1 : List (String × ConstraintInfo), rows.foldlM keyStep d = .ok d1 →
    ∀ k ci1, lookupC d1 k = some ci1 →
      (∃ ci, lookupC d k = some ci ∧ ci1.foreign_key = ci.foreign_key) ∨
      (∃ row ∈ rows, row.constraint_name = k ∧ ∃ ciN, mkKeyInfo row = .ok ciN ∧
        ci1.foreign_key = ciN.foreign_key) := by
  induction rows with
  | nil =>
      intro d d1 h k ci1 hl
      obtain rfl : d = d1 := by simpa [List.foldlM, pure, Except.pure] using h
      exact Or.inl ⟨ci1, hl, rfl⟩
  | cons row rest ih =>
      intro d d1 h k ci1 hl
      rw [List.foldlM_cons] at h
      cases hstep : keyStep d row with
      | error e => rw [hstep] at h; simp [Except.bind, bind] at h
      | ok dmid =>
          rw [hstep] at h
          have h' : rest.foldlM keyStep dmid = .ok d1 := by
            simpa [Except.bind, bind] using h
          rcases ih dmid d1 h' k ci1 hl with ⟨ci, hci, hfk⟩ | ⟨row2, hmem, hk2, hrest⟩
          · rcases keyStep_fk hstep hci with ⟨ci0, h0, hfk0⟩ |
              ⟨hkname, ciN, hmk, hfkN⟩
            · exact Or.inl ⟨ci0, h0, hfk.trans hfk0⟩
            · exact Or.inr ⟨row, List.mem_cons_self row rest, hkname, ciN, hmk,
                hfk.trans hfkN⟩
          · exact Or.inr ⟨row2, List.mem_cons_of_mem _ hmem, hk2, hrest⟩

/-- One CHECK-loop iteration: entries trace back with the same `foreign_key`,
or are fresh CHECK records (whose `foreign_key` is `none`). -/
theorem checkStep_fk {d : List (String × ConstraintInfo)} {row : String × String}
    {k : String} {ci1 : ConstraintInfo}
    (h : lookupC (checkStep d row) k = some ci1) :
    (∃ ci, lookupC d k = some ci ∧ ci1.foreign_key = ci.foreign_key) ∨
    ci1.foreign_key = none := by
  unfold checkStep at h
  by_cases hpres : (lookupC d row.1).isSome = true
  · rw [if_pos hpres] at h
    exact Or.inl (lookupC_addColumnC_fk h)
  · rw [if_neg hpres] at h
    obtain ⟨ci0, h0, hfk⟩ := lookupC_addColumnC_fk h
    rw [lookupC_append] at h0
    cases hd : lookupC d k with
    | some ci =>
        rw [hd] at h0
        refine Or.inl ⟨ci, rfl, ?_⟩
        rw [hfk]
        injection h0 with h0'
        rw [h0']
    | none =>
        rw [hd] at h0
        rw [Option.none_or, lookupC_single] at h0
        by_cases hk : (row.1 == k) = true
        · rw [if_pos hk] at h0
          right
          rw [hfk]
          injection h0 with h0'
          rw [← h0']
        · rw [if_neg hk] at h0
          cases h0

/-- The CHECK loop (`checkPass` fold). -/
theorem foldl_checkStep_fk (rows : List (String × String)) :
    ∀ d : List (String × ConstraintInfo), ∀ k ci1,
      lookupC (rows.foldl checkStep d) k = some ci1 →
      (∃ ci, lookupC d k = some ci ∧ ci1.foreign_key = ci.foreign_key) ∨
      ci1.foreign_key = none := by
  induction rows with
  | nil => intro d k ci1 h; exact Or.inl ⟨ci1, h, rfl⟩
  | cons row rest ih =>
      intro d k ci1 h
      rw [List.foldl_cons] at h
      rcases ih (checkStep d row) k ci1 h with ⟨ci, hci, hfk⟩ | hnone
      · rcases checkStep_fk hci with ⟨ci0, h0, hfk0⟩ | hnone0
        · exact Or.inl ⟨ci0, h0, hfk.trans hfk0⟩
        · exact Or.inr (hfk.trans hnone0)
      · exact Or.inr hnone

/-- One index-loop iteration: an existing entry is returned untouched; a fresh
entry is an index record (whose `foreign_key` is `none`). -/
theorem indexStep_fk {d : List (String × ConstraintInfo)} {r : IndexRow}
    {k : String} {ci1 : ConstraintInfo}
    (h : lookupC (indexStep d r) k = some ci1) :
    lookupC d k = some ci1 ∨ ci1.foreign_key = none := by
  unfold indexStep at h
  split at h
  · exact Or.inl h
  · rw [lookupC_append] at h
    cases hd : lookupC d k with
    | some ci =>
        rw [hd] at h
        exact Or.inl h
    | none =>
        rw [hd, Option.none_or, lookupC_single] at h
        by_cases hk : (r.index_name == k) = true
        · rw [if_pos hk] at h
          right
          injection h with h'
          rw [← h']
          rfl
        · rw [if_neg hk] at h
          cases h

/-- The index loop (`indexPass` fold). -/
theorem foldl_indexStep_fk (rows : List IndexRow) :
    ∀ d : List (String × ConstraintInfo), ∀ k ci1,
      lookupC (rows.foldl indexStep d) k = some ci1 →
      lookupC d k = some ci1 ∨ ci1.foreign_key = none := by
  induction rows with
  | nil => intro d k ci1 h; exact Or.inl h
  | cons r rest ih =>
      intro d k ci1 h
      rw [List.foldl_cons] at h
      rcases ih (indexStep d r) k ci1 h with hmid | hnone
      · exact indexStep_fk hmid
      · exact Or.inr hnone

/-- Every existing entry survives the index loop untouched (first-seen-wins). -/
theorem foldl_indexStep_preserves (rows : List IndexRow) :
    ∀ d : List (String × ConstraintInfo), ∀ k ci,
      lookupC d k = some ci → lookupC (rows.foldl indexStep d) k = some ci := by
  induction rows with
  | nil => intro d k ci h; exact h
  | cons r rest ih =>
      intro d k ci h
      rw [List.foldl_cons]
      refine ih _ k ci ?_
      unfold indexStep
      split
      · exact h
      · exact lookupC_append_left _ h

/-- A name absent from the dict whose first matching index row is `r` ends up
mapped to the fresh record of `r`. -/
theorem foldl_indexStep_new (rows : List IndexRow) (k : String) (r : IndexRow) :
    rows.find? (fun r0 => r0.index_name == k) = some r →
    ∀ d : List (String × ConstraintInfo), lookupC d k = none →
      lookupC (rows.foldl indexStep d) k = some (mkIndexInfo r) := by
  induction rows with
  | nil => intro hfind; simp at hfind
  | cons r0 rest ih =>
      intro hfind d hd
      rw [List.foldl_cons]
      by_cases h0 : (r0.index_name == k) = true
      · obtain rfl : r0 = r := by
          have : some r0 = some r := by simpa [List.find?, h0] using hfind
          injection this
        have hk : r0.index_name = k := by simpa using h0
        have hnone : lookupC d r0.index_name = none := by rw [hk]; exact hd
        have hstep : indexStep d r0 = d ++ [(r0.index_name, mkIndexInfo r0)] := by
          unfold indexStep
          rw [if_neg (by simp [hnone])]
        rw [hstep]
        refine foldl_indexStep_preserves rest _ k _ ?_
        rw [lookupC_append, hd, Option.none_or, lookupC_single, if_pos h0]
      · have hfind' : rest.find? (fun r0 => r0.index_name == k) = some r := by
          simpa [List.find?, h0] using hfind
        have hd' : lookupC (indexStep d r0) k = none := by
          unfold indexStep
          split
          · exact hd
          · rw [lookupC_append, hd, Option.none_or, lookupC_single, if_neg h0]
        exact ih hfind' _ hd'

/-! ### Introspection claim theorems -/

/-- C6 (counterexample): a catalog in which the index pass meets an index
named "c" that the key-column pass already recorded as a PRIMARY KEY
constraint: the result maps "c" to the earlier entry with its flags
unchanged — its `index` flag is `false`, not `true`, so the flags are not
unioned as the claim states. -/
theorem c6_index_collision_counterexample :
    get_constraints
      { pg_class := [],
        key_column_usage := [⟨"tenant1", "users", "c", "id", 1⟩],
        table_constraints := [⟨"tenant1", "users", "c", "PRIMARY KEY"⟩],
        constraint_column_usage := [],
        pg_index := [⟨"users", "tenant1", "c", ["id"], true, true⟩] }
      "tenant1" "users"
      = .ok [("c", ⟨["id"], true, true, none, false, false⟩)] ∧
    (lookupC [("c", (⟨["id"], true, true, none, false, false⟩ : ConstraintInfo))]
        "c").map ConstraintInfo.index = some false :=
  ⟨rfl, rfl⟩

/-- C6 (amended): when the index pass encounters a name already recorded by
the earlier passes, the result keeps that entry exactly as the earlier passes
built it (first-seen-wins; no flags are unioned — the counterexample shows the
`index` flag stays `false`); an index with a distinct name is added as a new
entry with the `index` flag set. -/
theorem c6_index_collision_first_seen (cat : Catalog) (schema table k : String)
    (d1 : List (String × ConstraintInfo))
    (h12 : keyPass cat schema table = .ok d1) :
    ∃ res, get_constraints cat schema table = .ok res ∧
      (∀ ci, lookupC (checkPass cat schema table d1) k = some ci →
        lookupC res k = some ci) ∧
      (∀ r, lookupC (checkPass cat schema table d1) k = none →
        (indexRows cat table).find? (fun r0 => r0.index_name == k) = some r →
        lookupC res k = some (mkIndexInfo r)) := by
  refine ⟨indexPass cat table (checkPass cat schema table d1), ?_, ?_, ?_⟩
  · simp [get_constraints, h12, bind, Except.bind, pure, Except.pure]
  · intro ci h
    exact foldl_indexStep_preserves (indexRows cat table) _ k ci h
  · intro r hnone hfind
    exact foldl_indexStep_new (indexRows cat table) k r hfind _ hnone

/-- C6 witness: in a catalog with a colliding index "c" and a distinct index
"idx2", the result keeps the pass-1 entry for "c" unchanged and adds "idx2" as
a new entry. -/
theorem c6_index_collision_first_seen_witness :
    ∃ res, get_constraints
      { pg_class := [],
        key_column_usage := [⟨"tenant1", "users", "c", "id", 1⟩],
        table_constraints := [⟨"tenant1", "users", "c", "PRIMARY KEY"⟩],
        constraint_column_usage := [],
        pg_index := [⟨"users", "tenant1", "c", ["id"], true, true⟩,
                     ⟨"users", "other", "idx2", ["x"], false, false⟩] }
      "tenant1" "users" = .ok res ∧
      lookupC res "c" = some ⟨["id"], true, true, none, false, false⟩ ∧
      lookupC res "idx2" =
        some (mkIndexInfo ⟨"users", "other", "idx2", ["x"], false, false⟩) := by
  obtain ⟨res, hres, hpres, hnew⟩ :=
    c6_index_collision_first_seen
      { pg_class := [],
        key_column_usage := [⟨"tenant1", "users", "c", "id", 1⟩],
        table_constraints := [⟨"tenant1", "users", "c", "PRIMARY KEY"⟩],
        constraint_column_usage := [],
        pg_index := [⟨"users", "tenant1", "c", ["id"], true, true⟩,
                     ⟨"users", "other", "idx2", ["x"], false, false⟩] }
      "tenant1" "users" "c"
      [("c", ⟨["id"], true, true, none, false, false⟩)] rfl
  obtain ⟨res2, hres2, _, hnew2⟩ :=
    c6_index_collision_first_seen
      { pg_class := [],
        key_column_usage := [⟨"tenant1", "users", "c", "id", 1⟩],
        table_constraints := [⟨"tenant1", "users", "c", "PRIMARY KEY"⟩],
        constraint_column_usage := [],
        pg_index := [⟨"users", "tenant1", "c", ["id"], true, true⟩,
                     ⟨"users", "other", "idx2", ["x"], false, false⟩] }
      "tenant1" "users" "idx2"
      [("c", ⟨["id"], true, true, none, false, false⟩)] rfl
  obtain rfl : res = res2 := by
    rw [hres] at hres2
    injection hres2
  refine ⟨res, hres, hpres _ rfl, hnew2 _ rfl rfl⟩

/-- C7 (counterexample): two catalog states that agree on every object of the
connection's schema "tenant1" and differ only in an index belonging to schema
"other" — yet `get_constraints` returns different results, because the index
query filters by table name only. -/
theorem c7_introspection_scope_counterexample :
    restrictCatalog "tenant1"
      { pg_class := [⟨"users", "r", "tenant1", true⟩],
        key_column_usage := [], table_constraints := [],
        constraint_column_usage := [], pg_index := [] } =
    restrictCatalog "tenant1"
      { pg_class := [⟨"users", "r", "tenant1", true⟩],
        key_column_usage := [], table_constraints := [],
        constraint_column_usage := [],
        pg_index := [⟨"users", "other", "idx_other", ["x"], false, false⟩] } ∧
    get_constraints
      { pg_class := [⟨"users", "r", "tenant1", true⟩],
        key_column_usage := [], table_constraints := [],
        constraint_column_usage := [], pg_index := [] } "tenant1" "users" ≠
    get_constraints
      { pg_class := [⟨"users", "r", "tenant1", true⟩],
        key_column_usage := [], table_constraints := [],
        constraint_column_usage := [],
        pg_index := [⟨"users", "other", "idx_other", ["x"], false, false⟩] }
      "tenant1" "users" :=
  ⟨rfl, by decide⟩

/-- C7 (amended): the scoping hyperproperty holds for `get_table_list`: two
catalog states agreeing on the pg_class rows of the connection's current
schema yield identical table lists. It fails for `get_constraints` (see the
counterexample): the index query filters only by table name and the
foreign-key usage subquery has no schema filter, so objects of other schemas
can change its result. -/
theorem c7_get_table_list_schema_scoped (c1 c2 : Catalog) (s : String)
    (ignored : List String)
    (h : c1.pg_class.filter (fun c => c.nspname == s) =
         c2.pg_class.filter (fun c => c.nspname == s)) :
    get_table_list c1 s ignored = get_table_list c2 s ignored := by
  have key : ∀ l : List PgClassRow,
      l.filter (fun c =>
        (c.relkind == "r" || c.relkind == "v" || c.relkind == "") &&
        c.nspname == s && c.visible) =
      (l.filter (fun c => c.nspname == s)).filter
        (fun c =>
          (c.relkind == "r" || c.relkind == "v" || c.relkind == "") &&
          c.visible) := by
    intro l
    induction l with
    | nil => rfl
    | cons c cs ih =>
        simp only [List.filter_cons]
        cases hn : (c.nspname == s) <;>
          cases hk : (c.relkind == "r" || c.relkind == "v" || c.relkind == "") <;>
            cases hv : c.visible <;>
              simp_all [List.filter_cons]
  unfold get_table_list
  rw [key c1.pg_class, key c2.pg_class, h]

/-- C7 witness: two concrete catalogs differing only in a table of schema
"other" produce the same table list for schema "tenant1". -/
theorem c7_get_table_list_schema_scoped_witness :
    get_table_list
      { pg_class := [⟨"users", "r", "tenant1", true⟩],
        key_column_usage := [], table_constraints := [],
        constraint_column_usage := [], pg_index := [] } "tenant1" [] =
    get_table_list
      { pg_class := [⟨"users", "r", "tenant1", true⟩,
                     ⟨"secret", "r", "other", true⟩],
        key_column_usage := [], table_constraints := [],
        constraint_column_usage := [], pg_index := [] } "tenant1" [] :=
  c7_get_table_list_schema_scoped
    { pg_class := [⟨"users", "r", "tenant1", true⟩],
      key_column_usage := [], table_constraints := [],
      constraint_column_usage := [], pg_index := [] }
    { pg_class := [⟨"users", "r", "tenant1", true⟩,
                   ⟨"secret", "r", "other", true⟩],
      key_column_usage := [], table_constraints := [],
      constraint_column_usage := [], pg_index := [] } "tenant1" [] rfl

theorem splitFirst_concat (l1 l2 : List Char) (sep : Char) (h : sep ∉ l1) :
    splitFirst sep (l1 ++ sep :: l2) = some (l1, l2) := by
  induction l1 with
  | nil => simp [splitFirst]
  | cons c cs ih =>
      simp only [List.cons_append, splitFirst]
      rw [if_neg (by
        intro hc
        exact h (by rw [← hc]; exact List.mem_cons_self c cs))]
      have harw : cs.append (sep :: l2) = cs ++ sep :: l2 := rfl
      rw [harw, ih (fun hm => h (List.mem_cons_of_mem c hm))]

/-- Splitting `tbl ++ "." ++ col` on the first dot returns the pair
`(tbl, col)` whenever `tbl` itself has no dot — even when `col` does. -/
theorem split1_first_dot (tbl col : String) (h : '.' ∉ tbl.data) :
    split1 (tbl ++ "." ++ col) '.' = [tbl, col] := by
  unfold split1
  have hd : (tbl ++ "." ++ col).data = tbl.data ++ '.' :: col.data := by
    rw [String.data_append, String.data_append]
    rw [show (".".data : List Char) = ['.'] from rfl, List.append_assoc]
    rfl
  rw [hd, splitFirst_concat tbl.data col.data '.' h]

theorem keyColumnRows_used {cat : Catalog} {schema table : String}
    {row : KeyRowJoined} (hmem : row ∈ keyColumnRows cat schema table) :
    row.used_cols = usedCols cat row.constraint_name := by
  unfold keyColumnRows at hmem
  obtain ⟨rc, _, rfl⟩ := List.mem_map.mp hmem
  rfl

/-- C9: every foreign-key value returned by `get_constraints` is
`used_cols[0]` split on the first dot only: it equals the split of the first
`table.column` usage string of that constraint, and when the referenced table
name itself contains no dot the decomposition `(referenced_table,
referenced_column)` is preserved exactly — even for a multi-part referenced
name whose column part contains further dots. -/
theorem c9_foreign_key_first_dot (cat : Catalog) (schema table k : String)
    (res : List (String × ConstraintInfo)) (ci : ConstraintInfo)
    (fk : List String)
    (hrun : get_constraints cat schema table = .ok res)
    (hlook : lookupC res k = some ci)
    (hfk : ci.foreign_key = some fk) :
    ∃ s rest, usedCols cat k = s :: rest ∧ fk = split1 s '.' ∧
      ∀ tbl col, s = tbl ++ "." ++ col → '.' ∉ tbl.data → fk = [tbl, col] := by
  cases hkp : keyPass cat schema table with
  | error e =>
      unfold get_constraints at hrun
      rw [hkp] at hrun
      simp [bind, Except.bind] at hrun
  | ok d1 =>
      unfold get_constraints at hrun
      rw [hkp] at hrun
      have hres : res = indexPass cat table (checkPass cat schema table d1) := by
        have := hrun
        simp only [bind, Except.bind, pure, Except.pure, Except.ok.injEq] at this
        exact this.symm
      subst hres
      rcases foldl_indexStep_fk (indexRows cat table) _ k ci hlook with h2 | hnone
      · rcases foldl_checkStep_fk (checkRows cat schema table) d1 k ci h2 with
          ⟨ci0, h0, hfk0⟩ | hnone
        · rcases foldlM_keyStep_fk (keyColumnRows cat schema table) [] d1 hkp
            k ci0 h0 with ⟨ci00, h00, _⟩ | ⟨row, hmem, hkname, ciN, hmk, hfkN⟩
          · simp [lookupC] at h00
          · have hfkN2 : ciN.foreign_key = some fk :=
              hfkN.symm.trans (hfk0.symm.trans hfk)
            unfold mkKeyInfo at hmk
            by_cases hkind : (str_lower row.constraint_type == "foreign key") = true
            · rw [if_pos hkind] at hmk
              cases hu : row.used_cols with
              | nil => rw [hu] at hmk; cases hmk
              | cons s rest =>
                  rw [hu] at hmk
                  have hN : ciN.foreign_key = some (split1 s '.') := by
                    injection hmk with h'
                    rw [← h']
                  have hsplit : split1 s '.' = fk := by
                    have := hN.symm.trans hfkN2
                    injection this
                  refine ⟨s, rest, ?_, hsplit.symm, ?_⟩
                  · rw [← hkname, ← keyColumnRows_used hmem, hu]
                  · intro tbl col hs hdot
                    rw [← hsplit, hs]
                    exact split1_first_dot tbl col hdot
            · rw [if_neg hkind] at hmk
              have hN : ciN.foreign_key = none := by
                injection hmk with h'
                rw [← h']
              rw [hN] at hfkN2
              cases hfkN2
        · rw [hnone] at hfk
          cases hfk
      · rw [hnone] at hfk
        cases hfk

/-- C9 witness: a concrete foreign key whose referenced column name itself
contains a dot ("id.x"): the split is on the first dot only, so the
decomposition (referenced table "customers", referenced column "id.x") is
preserved. -/
theorem c9_foreign_key_first_dot_witness :
    ∃ s rest,
      usedCols
        { pg_class := [],
          key_column_usage := [⟨"tenant1", "orders", "fk1", "customer_id", 1⟩],
          table_constraints := [⟨"tenant1", "orders", "fk1", "FOREIGN KEY"⟩],
          constraint_column_usage := [⟨"tenant1", "customers", "id.x", "fk1"⟩],
          pg_index := [] } "fk1" = s :: rest ∧
      (["customers", "id.x"] : List String) = split1 s '.' ∧
      ∀ tbl col, s = tbl ++ "." ++ col → '.' ∉ tbl.data →
        (["customers", "id.x"] : List String) = [tbl, col] :=
  c9_foreign_key_first_dot
    { pg_class := [],
      key_column_usage := [⟨"tenant1", "orders", "fk1", "customer_id", 1⟩],
      table_constraints := [⟨"tenant1", "orders", "fk1", "FOREIGN KEY"⟩],
      constraint_column_usage := [⟨"tenant1", "customers", "id.x", "fk1"⟩],
      pg_index := [] } "tenant1" "orders" "fk1"
    [("fk1", ⟨["customer_id"], false, false,
      some ["customers", "id.x"], false, false⟩)]
    ⟨["customer_id"], false, false, some ["customers", "id.x"], false, false⟩
    ["customers", "id.x"] rfl rfl rfl

end TenantSchemas
